import Mathlib

/-!
Shallow embedding of the parkantools NRes archiver
(src/parkantools/nres/nres_archiver.py and src/parkantools/parkanio/fileio.py).

Bytes are modelled as natural numbers; buffers, Python `bytes` objects and
Python `str` objects are lists of naturals (a `str` is identified with its
UTF-8 code-unit sequence, which is faithful because CPython's strict
`bytes.decode('utf-8')` / `str.encode('utf-8')` are mutually inverse on
valid UTF-8 byte strings).  Python exceptions become an explicit error type
threaded through `Except`.  File-system state that the code consults
(existence of an output path) is passed in explicitly; the bytes a call
would write to disk are returned as data.
-/

namespace Nres

set_option maxRecDepth 40000

/-- Python exceptions raised by the archiver, one constructor per distinct
raise site or runtime error the modelled code can produce. -/
inductive PyErr where
  /-- ValueError from NresArchiveMetadata.decode: wrong metadata buffer size. -/
  | badMetadataSize (got : Nat)
  /-- ValueError from NresArchiveMetadata.decode: signature mismatch. -/
  | badSignature (got : Nat)
  /-- ValueError from decode_table_of_contents: wrong toc buffer size. -/
  | badTocSize (got expected : Nat)
  /-- UnicodeDecodeError from bytes.decode applied to a non-UTF-8 field. -/
  | unicodeDecodeError
  /-- struct.error: wrong buffer size for unpack, or a non-bytes argument
  supplied for an `s` slot of struct.pack. -/
  | structArgError
  /-- struct.error: integer argument out of range for format `I`. -/
  | structRangeError
  /-- ValueError from unpack_file: fewer payload bytes than declared. -/
  | shortRead (expected got : Nat)
  /-- OSError from seeking to a negative file position. -/
  | negativeSeek
  /-- ValueError from create_directory_if_needed: the output directory
  path names an existing regular file. -/
  | outputDirIsFile
deriving DecidableEq, Repr

/-- What a path the code probes refers to on the file system. -/
inductive PathState where
  | absent
  | isFile
  | isDir
deriving DecidableEq, Repr

/-- A Python value held in the `file_type` attribute: the writer stores a
`bytes` object (read raw from the input file) while the decoder stores a
`str` (the UTF-8 decode of the field).  struct.pack treats the two
differently, so the distinction is kept. -/
inductive TypeField where
  | str (s : List Nat)
  | bytes (b : List Nat)
deriving DecidableEq, Repr

/-- Byte of a buffer at an index, missing positions reading as 0 (only used
at indices the length checks have already validated). -/
def byteAt (l : List Nat) (i : Nat) : Nat := l.getD i 0

/-- Little-endian unsigned 32-bit read at byte index `i`, as performed by
struct.unpack with format `I`. -/
def u32at (l : List Nat) (i : Nat) : Nat :=
  byteAt l i + 256 * byteAt l (i + 1) + 65536 * byteAt l (i + 2)
    + 16777216 * byteAt l (i + 3)

/-- Little-endian 4-byte encoding of `n % 2^32`, as emitted by struct.pack
with format `I` (the in-range check is done by the callers). -/
def le32 (n : Nat) : List Nat :=
  [n % 256, n / 256 % 256, n / 65536 % 256, n / 16777216 % 256]

/-- struct.pack semantics for format `ns` on a bytes object: truncate to
`w` bytes or pad with trailing NULs, always producing exactly `w` bytes. -/
def packS (w : Nat) (b : List Nat) : List Nat :=
  b.take w ++ List.replicate (w - b.length) 0

/-- Python str.rstrip applied with the NUL character: drop trailing zero
bytes. -/
def rstripNul (l : List Nat) : List Nat :=
  (l.reverse.dropWhile (fun b => b == 0)).reverse

/-- One-byte-at-a-time UTF-8 validation automaton.  `pending` counts the
continuation bytes still owed; `lo`/`hi` bound the next continuation byte
(the first continuation byte after some lead bytes has a narrowed range,
per RFC 3629). -/
def utf8Loop : List Nat → Nat → Nat → Nat → Bool
  | [], pending, _, _ => pending == 0
  | b :: rest, 0, _, _ =>
    if b < 128 then utf8Loop rest 0 0 0
    else if 194 ≤ b ∧ b ≤ 223 then utf8Loop rest 1 128 191
    else if b = 224 then utf8Loop rest 2 160 191
    else if (225 ≤ b ∧ b ≤ 236) ∨ b = 238 ∨ b = 239 then utf8Loop rest 2 128 191
    else if b = 237 then utf8Loop rest 2 128 159
    else if b = 240 then utf8Loop rest 3 144 191
    else if 241 ≤ b ∧ b ≤ 243 then utf8Loop rest 3 128 191
    else if b = 244 then utf8Loop rest 3 128 143
    else false
  | b :: rest, pending + 1, lo, hi =>
    if lo ≤ b ∧ b ≤ hi then utf8Loop rest pending 128 191 else false

/-- Whether a byte string is valid UTF-8, i.e. whether CPython's strict
`bytes.decode('utf-8')` succeeds on it. -/
def validUtf8 (l : List Nat) : Bool := utf8Loop l 0 0 0

instance {ε α : Type} [DecidableEq ε] [DecidableEq α] :
    DecidableEq (Except ε α) := fun x y => by
  cases x <;> cases y
  case error.error a b =>
    exact if h : a = b then isTrue (by rw [h]) else isFalse (by simp [h])
  case error.ok a b => exact isFalse (by simp)
  case ok.error a b => exact isFalse (by simp)
  case ok.ok a b =>
    exact if h : a = b then isTrue (by rw [h]) else isFalse (by simp [h])

/-- Sequential effectful map, the semantics of a Python for loop that
appends results and lets the first exception propagate. -/
def exceptMap (g : α → Except PyErr β) : List α → Except PyErr (List β)
  | [] => .ok []
  | a :: l =>
    match g a with
    | .error e => .error e
    | .ok b =>
      match exceptMap g l with
      | .error e => .error e
      | .ok bs => .ok (b :: bs)

/-- In-memory TOC entry, mirroring class ArchivedFileMetadata. -/
structure ArchivedFileMetadata where
  file_type : TypeField
  file_size : Nat
  file_name : List Nat
  file_offset : Nat
  file_id : Nat
deriving DecidableEq, Repr

def ArchivedFileMetadata.METADATA_SIZE : Nat := 64

/-- ArchivedFileMetadata.decode: struct.unpack of format `12sII36sII`
followed by UTF-8 decoding and NUL-stripping of the two text fields.
struct.unpack itself raises when the buffer is not exactly 64 bytes;
`.decode('utf-8')` raises on invalid UTF-8 (type field first, as Python
evaluates the constructor arguments left to right). -/
def ArchivedFileMetadata.decode (buffer : List Nat) :
    Except PyErr ArchivedFileMetadata :=
  if buffer.length ≠ ArchivedFileMetadata.METADATA_SIZE then
    .error .structArgError
  else
    let type := buffer.take 12
    let size := u32at buffer 12
    let name := (buffer.drop 20).take 36
    let offset := u32at buffer 56
    let id := u32at buffer 60
    if validUtf8 type = false then .error .unicodeDecodeError
    else if validUtf8 name = false then .error .unicodeDecodeError
    else .ok ⟨.str (rstripNul type), size, rstripNul name, offset, id⟩

/-- ArchivedFileMetadata.bytes: struct.pack of format `12sII36sII`.  The
`s` slots require a bytes object — a decoded entry holds a str in
file_type and struct.pack raises on it.  Format `I` raises when an integer
does not fit in 32 unsigned bits.  file_name goes through a str-to-bytes
encode first, which on our representation is the identity. -/
def ArchivedFileMetadata.bytes (m : ArchivedFileMetadata) :
    Except PyErr (List Nat) :=
  match m.file_type with
  | .str _ => .error .structArgError
  | .bytes tb =>
    if m.file_size < 4294967296 ∧ m.file_offset < 4294967296
        ∧ m.file_id < 4294967296 then
      .ok (packS 12 tb ++ le32 m.file_size ++ le32 0 ++ packS 36 m.file_name
        ++ le32 m.file_offset ++ le32 m.file_id)
    else .error .structRangeError

/-- In-memory archive header, mirroring class NresArchiveMetadata. -/
structure NresArchiveMetadata where
  x : Nat
  file_count : Nat
  archive_size : Nat
deriving DecidableEq, Repr

def NresArchiveMetadata.SIGNATURE : Nat := 0x7365524e

def NresArchiveMetadata.METADATA_SIZE : Nat := 16

/-- NresArchiveMetadata.decode: explicit buffer-size check, struct.unpack
of format `IIII`, signature check, then a header value with x forced to 0. -/
def NresArchiveMetadata.decode (buffer : List Nat) :
    Except PyErr NresArchiveMetadata :=
  if buffer.length ≠ NresArchiveMetadata.METADATA_SIZE then
    .error (.badMetadataSize buffer.length)
  else
    let signature_bytes := u32at buffer 0
    let file_count := u32at buffer 8
    let archive_size := u32at buffer 12
    if signature_bytes ≠ NresArchiveMetadata.SIGNATURE then
      .error (.badSignature signature_bytes)
    else .ok ⟨0, file_count, archive_size⟩

/-- NresArchiveMetadata.bytes: struct.pack of format `IIII` with the fixed
signature and the constant 0x0100 in the reserved slot. -/
def NresArchiveMetadata.bytes (m : NresArchiveMetadata) :
    Except PyErr (List Nat) :=
  if m.file_count < 4294967296 ∧ m.archive_size < 4294967296 then
    .ok (le32 NresArchiveMetadata.SIGNATURE ++ le32 256
      ++ le32 m.file_count ++ le32 m.archive_size)
  else .error .structRangeError

/-- decode_table_of_contents: exact-size check, then one 64-byte slice per
index decoded in order, the first failure propagating. -/
def decode_table_of_contents (buffer : List Nat) (file_count : Nat) :
    Except PyErr (List ArchivedFileMetadata) :=
  if buffer.length ≠ ArchivedFileMetadata.METADATA_SIZE * file_count then
    .error (.badTocSize buffer.length
      (ArchivedFileMetadata.METADATA_SIZE * file_count))
  else
    exceptMap
      (fun i => ArchivedFileMetadata.decode
        ((buffer.drop (ArchivedFileMetadata.METADATA_SIZE * i)).take
          ArchivedFileMetadata.METADATA_SIZE))
      (List.range file_count)

/-- can_modify_file from parkanio/fileio.py.  The source's first guard is
`if not Path(path).exists:` — the call parentheses are missing, so the
test is on the bound method object, always truthy, and the branch never
returns; the subsequent is_file/is_dir checks decide everything, with the
trailing `return True` covering nonexistent paths. -/
def can_modify_file (st : PathState) (force : Bool) : Bool :=
  if st = PathState.isFile then
    if force then true else false
  else if st = PathState.isDir then false
  else true

/-- create_directory_if_needed from parkanio/fileio.py.  Returns whether a
mkdir was performed; raises when the path is an existing regular file;
a dry run skips the mkdir after the same validation. -/
def create_directory_if_needed (st : PathState) (dry_run : Bool) :
    Except PyErr Bool :=
  if st = PathState.isFile then .error .outputDirIsFile
  else if st = PathState.isDir then .ok false
  else if dry_run then .ok false
  else .ok true

/-- Result of unpack_file for one entry: skipped by the overwrite policy,
validated but not written because of dry run, or written with the given
payload bytes. -/
inductive UnpackResult where
  | skipped
  | dryRun
  | written (buf : List Nat)
deriving DecidableEq, Repr

/-- unpack_file: seek to file_offset, read file_size bytes (a Python read
returns what is available), raise on a short read, then consult the
overwrite policy and the dry-run flag before writing. -/
def unpack_file (metadata : ArchivedFileMetadata) (archive_data : List Nat)
    (outState : PathState) (dry_run force : Bool) :
    Except PyErr UnpackResult :=
  let file_buffer :=
    (archive_data.drop metadata.file_offset).take metadata.file_size
  if file_buffer.length ≠ metadata.file_size then
    .error (.shortRead metadata.file_size file_buffer.length)
  else if can_modify_file outState force = false then .ok .skipped
  else if dry_run then .ok .dryRun
  else .ok (.written file_buffer)

/-- unarchive: decode the 16-byte header, seek to
archive_size - file_count * 64 (a negative target makes the OS-level seek
fail), read and decode the TOC, then unpack every entry in TOC order; the
first exception aborts the whole call.  `fs` maps each entry's output file
name to the state of that path; the returned list pairs every TOC entry
with what happened to it. -/
def unarchive (archive_data : List Nat) (fs : List Nat → PathState)
    (dry_run force : Bool) :
    Except PyErr (List (ArchivedFileMetadata × UnpackResult)) :=
  match NresArchiveMetadata.decode
      (archive_data.take NresArchiveMetadata.METADATA_SIZE) with
  | .error e => .error e
  | .ok metadata =>
    let toc_size := metadata.file_count * ArchivedFileMetadata.METADATA_SIZE
    if metadata.archive_size < toc_size then .error .negativeSeek
    else
      let toc_offset := metadata.archive_size - toc_size
      let toc_buffer := (archive_data.drop toc_offset).take toc_size
      match decode_table_of_contents toc_buffer metadata.file_count with
      | .error e => .error e
      | .ok toc =>
        exceptMap
          (fun entry =>
            match unpack_file entry archive_data (fs entry.file_name)
                dry_run force with
            | .error e => .error e
            | .ok r => .ok (entry, r))
          toc

/-- One input file handed to the writer: its base name (a Python str) and
its raw content bytes. -/
structure InputFile where
  name : List Nat
  content : List Nat
deriving DecidableEq, Repr

/-- The per-file loop of archive (lines 198-221): take the first 4 bytes
of the content as the type tag (struct.unpack of format `4s` raises when
fewer than 4 bytes could be read), append the content to the stream, and
record a TOC entry at the running write position.  Returns the
concatenated payload and the entry list. -/
def buildEntries : List InputFile → Nat → Nat →
    Except PyErr (List Nat × List ArchivedFileMetadata)
  | [], _, _ => .ok ([], [])
  | f :: rest, file_offset, file_id =>
    if f.content.length < 4 then .error .structArgError
    else
      let entry : ArchivedFileMetadata :=
        ⟨TypeField.bytes (f.content.take 4), f.content.length, f.name,
          file_offset, file_id⟩
      match buildEntries rest (file_offset + f.content.length)
          (file_id + 1) with
      | .error e => .error e
      | .ok (payload, entries) => .ok (f.content ++ payload, entry :: entries)

/-- archive: overwrite-policy check on the output path, size computation,
header write, payload-plus-TOC-entry loop, then the encoded TOC.  Returns
none when the policy declined, otherwise the full byte stream written to
the output file.  The dry_run parameter is accepted and, as in the source,
never consulted. -/
def archive (file_paths : List InputFile) (outState : PathState)
    (dry_run force : Bool) : Except PyErr (Option (List Nat)) :=
  if can_modify_file outState force = false then .ok none
  else
    let file_count := file_paths.length
    let file_sizes := file_paths.map fun f => f.content.length
    let total_size := NresArchiveMetadata.METADATA_SIZE + file_sizes.sum
      + file_count * ArchivedFileMetadata.METADATA_SIZE
    let header : NresArchiveMetadata := ⟨0, file_count, total_size⟩
    match header.bytes with
    | .error e => .error e
    | .ok header_bytes =>
      match buildEntries file_paths header_bytes.length 0 with
      | .error e => .error e
      | .ok (payload, toc_entries) =>
        match exceptMap ArchivedFileMetadata.bytes toc_entries with
        | .error e => .error e
        | .ok toc_bytes =>
          .ok (some (header_bytes ++ payload ++ toc_bytes.flatten))

/-- Raw byte payload of a file_type value, whichever Python type holds it. -/
def TypeField.raw : TypeField → List Nat
  | .str s => s
  | .bytes b => b

/-- The 64-byte encoding ArchivedFileMetadata.bytes produces when it
succeeds, as a total function. -/
def encBytes (e : ArchivedFileMetadata) : List Nat :=
  packS 12 e.file_type.raw ++ le32 e.file_size ++ le32 0
    ++ packS 36 e.file_name ++ le32 e.file_offset ++ le32 e.file_id

/-- The TOC entries the writer's loop constructs for the given inputs,
starting at write position `pos` with next sequential id `fid`. -/
def entriesSpec : List InputFile → Nat → Nat → List ArchivedFileMetadata
  | [], _, _ => []
  | f :: rest, pos, fid =>
    ⟨TypeField.bytes (f.content.take 4), f.content.length, f.name, pos, fid⟩
      :: entriesSpec rest (pos + f.content.length) (fid + 1)

/-- What unarchiving a freshly built archive of the given inputs yields:
the decoded form of each written entry paired with its extracted payload. -/
def unarchSpec : List InputFile → Nat → Nat →
    List (ArchivedFileMetadata × UnpackResult)
  | [], _, _ => []
  | f :: rest, pos, fid =>
    (⟨TypeField.str (rstripNul (packS 12 (f.content.take 4))),
        f.content.length, rstripNul (packS 36 f.name), pos, fid⟩,
      UnpackResult.written f.content)
      :: unarchSpec rest (pos + f.content.length) (fid + 1)

/-- The entry the TOC decoder reconstructs from an encoded entry: the two
text fields come back NUL-padded to their slot width and then NUL-stripped,
and the type field is now held as a str. -/
def decEntry (e : ArchivedFileMetadata) : ArchivedFileMetadata :=
  ⟨TypeField.str (rstripNul (packS 12 e.file_type.raw)), e.file_size,
    rstripNul (packS 36 e.file_name), e.file_offset, e.file_id⟩

/-- Fixed-layout decoder for the archive header as the specification
states it: reject any buffer that is not exactly 16 bytes with a bad-size
error, reject any 16-byte buffer whose first little-endian u32 differs
from 0x7365524E with a bad-signature error regardless of the remaining
three fields, and otherwise build the header from the third and fourth
little-endian u32. -/
def specDecodeHeader (buffer : List Nat) : Except PyErr NresArchiveMetadata :=
  if buffer.length ≠ 16 then .error (.badMetadataSize buffer.length)
  else if u32at buffer 0 ≠ 0x7365524e then .error (.badSignature (u32at buffer 0))
  else .ok ⟨0, u32at buffer 8, u32at buffer 12⟩

/-- Concrete corrupt archive: two TOC entries, the first declaring
file_size 200 at offset 16 when only 136 bytes remain, the second a
well-formed 8-byte entry at offset 16. -/
def c2data : List Nat :=
  [78, 82, 101, 115] ++ [0, 1, 0, 0] ++ [2, 0, 0, 0] ++ [152, 0, 0, 0]
    ++ [1, 2, 3, 4, 5, 6, 7, 8]
    ++ (List.replicate 12 0 ++ [200, 0, 0, 0] ++ [0, 0, 0, 0]
      ++ List.replicate 36 0 ++ [16, 0, 0, 0] ++ [0, 0, 0, 0])
    ++ (List.replicate 12 0 ++ [8, 0, 0, 0] ++ [0, 0, 0, 0]
      ++ List.replicate 36 0 ++ [16, 0, 0, 0] ++ [1, 0, 0, 0])

/-- Concrete corrupt archive: entry 0 well formed (4 bytes at offset 16),
entry 1 truncated (declares 999 bytes where only 132 remain). -/
def c2w : List Nat :=
  [78, 82, 101, 115] ++ [0, 1, 0, 0] ++ [2, 0, 0, 0] ++ [148, 0, 0, 0]
    ++ [9, 9, 9, 9]
    ++ (List.replicate 12 0 ++ [4, 0, 0, 0] ++ [0, 0, 0, 0]
      ++ List.replicate 36 0 ++ [16, 0, 0, 0] ++ [0, 0, 0, 0])
    ++ (List.replicate 12 0 ++ [231, 3, 0, 0] ++ [0, 0, 0, 0]
      ++ List.replicate 36 0 ++ [16, 0, 0, 0] ++ [1, 0, 0, 0])

/-- Concrete archive whose header declares file_count 1 and archive_size
64, so the table of contents is claimed to start at offset 0, inside the
header itself. -/
def c5data : List Nat :=
  [78, 82, 101, 115] ++ [65, 66, 67, 68] ++ [1, 0, 0, 0] ++ [64, 0, 0, 0]
    ++ List.replicate 48 0

/-- Variant of the overlapping-TOC archive with a different reserved
field, used to instantiate the general no-validation theorem. -/
def c5w : List Nat :=
  [78, 82, 101, 115] ++ [87, 88, 89, 90] ++ [1, 0, 0, 0] ++ [64, 0, 0, 0]
    ++ List.replicate 48 0

/-- A well-formed 64-byte TOC entry buffer: type tag TYPE, size 4,
name a, offset 16, id 0. -/
def c10buf : List Nat :=
  [84, 89, 80, 69] ++ List.replicate 8 0 ++ [4, 0, 0, 0] ++ [0, 0, 0, 0]
    ++ ([97] ++ List.replicate 35 0) ++ [16, 0, 0, 0] ++ [0, 0, 0, 0]

theorem le32_length (n : Nat) : (le32 n).length = 4 := rfl

theorem packS_length (w : Nat) (b : List Nat) : (packS w b).length = w := by
  simp [packS]
  omega

theorem u32at_le32 (n : Nat) (h : n < 4294967296) (r : List Nat) :
    u32at (le32 n ++ r) 0 = n := by
  simp [u32at, byteAt, le32, List.getD]
  omega

theorem byteAt_append (a b : List Nat) (k : Nat) :
    byteAt (a ++ b) (a.length + k) = byteAt b k := by
  rw [byteAt, byteAt, List.getD_append_right a b 0 (a.length + k) (by omega)]
  congr 1
  omega

theorem u32at_append (a b : List Nat) (k : Nat) :
    u32at (a ++ b) (a.length + k) = u32at b k := by
  have h1 : a.length + k + 1 = a.length + (k + 1) := by omega
  have h2 : a.length + k + 2 = a.length + (k + 2) := by omega
  have h3 : a.length + k + 3 = a.length + (k + 3) := by omega
  rw [u32at, h1, h2, h3, byteAt_append, byteAt_append, byteAt_append,
    byteAt_append, u32at]

theorem dropWhile_zero_replicate (k : Nat) (y : List Nat) :
    List.dropWhile (fun b => b == 0) (List.replicate k 0 ++ y)
      = List.dropWhile (fun b => b == 0) y := by
  induction k with
  | zero => simp
  | succ k ih => simp [List.replicate_succ, List.dropWhile, ih]

theorem rstripNul_pad (x : List Nat) (k : Nat) :
    rstripNul (x ++ List.replicate k 0) = rstripNul x := by
  rw [rstripNul, rstripNul, List.reverse_append, List.reverse_replicate,
    dropWhile_zero_replicate]

theorem packS_of_le (w : Nat) (b : List Nat) (h : b.length ≤ w) :
    packS w b = b ++ List.replicate (w - b.length) 0 := by
  rw [packS, List.take_of_length_le h]

theorem rstripNul_packS (w : Nat) (b : List Nat) (h : b.length ≤ w)
    (hb : rstripNul b = b) : rstripNul (packS w b) = b := by
  rw [packS_of_le w b h, rstripNul_pad, hb]

theorem exceptMap_ok_of (g : α → Except PyErr β) (h : α → β) (l : List α)
    (hl : ∀ a ∈ l, g a = .ok (h a)) : exceptMap g l = .ok (l.map h) := by
  induction l with
  | nil => rfl
  | cons a l ih =>
    have ha := hl a (List.mem_cons_self a l)
    have hrest := ih fun a' ha' => hl a' (List.mem_cons_of_mem a ha')
    simp [exceptMap, ha, hrest]

theorem exceptMap_congr (g g' : α → Except PyErr β) (l : List α)
    (h : ∀ a ∈ l, g a = g' a) : exceptMap g l = exceptMap g' l := by
  induction l with
  | nil => rfl
  | cons a l ih =>
    have ha := h a (List.mem_cons_self a l)
    have hrest := ih fun a' ha' => h a' (List.mem_cons_of_mem a ha')
    simp [exceptMap, ha, hrest]

theorem exceptMap_map (g : β → Except PyErr γ) (f : α → β) (l : List α) :
    exceptMap g (l.map f) = exceptMap (fun a => g (f a)) l := by
  induction l with
  | nil => rfl
  | cons a l ih => simp [exceptMap, ih]

theorem exceptMap_error_at (g : α → Except PyErr β) (e : PyErr) :
    ∀ (l : List α) (i : Nat) (hi : i < l.length),
      (∀ j (hj : j < i), ∃ b, g (l.get ⟨j, by omega⟩) = .ok b) →
      g (l.get ⟨i, hi⟩) = .error e → exceptMap g l = .error e
  | [], i, hi, _, _ => by simp at hi
  | a :: l, 0, _, _, herr => by
    simp at herr
    simp [exceptMap, herr]
  | a :: l, i + 1, hi, hok, herr => by
    obtain ⟨b, hb⟩ := hok 0 (by omega)
    simp at hb
    have hrest : exceptMap g l = .error e := by
      refine exceptMap_error_at g e l i (by simpa using hi) ?_ ?_
      · intro j hj
        obtain ⟨c, hc⟩ := hok (j + 1) (by omega)
        exact ⟨c, by simpa using hc⟩
      · simpa using herr
    simp [exceptMap, hb, hrest]

theorem encBytes_length (e : ArchivedFileMetadata) :
    (encBytes e).length = 64 := by
  simp [encBytes, packS_length, le32_length]

theorem bytes_ok (e : ArchivedFileMetadata) (tb : List Nat)
    (ht : e.file_type = .bytes tb) (hs : e.file_size < 4294967296)
    (ho : e.file_offset < 4294967296) (hi : e.file_id < 4294967296) :
    e.bytes = .ok (encBytes e) := by
  simp [ArchivedFileMetadata.bytes, ht, encBytes, TypeField.raw, hs, ho, hi]

theorem decode_eval (buffer : List Nat) (hlen : buffer.length = 64)
    (ht : validUtf8 (buffer.take 12) = true)
    (hn : validUtf8 ((buffer.drop 20).take 36) = true) :
    ArchivedFileMetadata.decode buffer =
      .ok ⟨.str (rstripNul (buffer.take 12)), u32at buffer 12,
        rstripNul ((buffer.drop 20).take 36), u32at buffer 56,
        u32at buffer 60⟩ := by
  simp [ArchivedFileMetadata.decode, ArchivedFileMetadata.METADATA_SIZE,
    hlen, ht, hn]

theorem header_decode_eval (buffer : List Nat) (hlen : buffer.length = 16)
    (hsig : u32at buffer 0 = NresArchiveMetadata.SIGNATURE) :
    NresArchiveMetadata.decode buffer
      = .ok ⟨0, u32at buffer 8, u32at buffer 12⟩ := by
  simp [NresArchiveMetadata.decode, NresArchiveMetadata.METADATA_SIZE,
    hlen, hsig]

theorem decode_encBytes (e : ArchivedFileMetadata)
    (hs : e.file_size < 4294967296) (ho : e.file_offset < 4294967296)
    (hi : e.file_id < 4294967296)
    (ht : validUtf8 (packS 12 e.file_type.raw) = true)
    (hn : validUtf8 (packS 36 e.file_name) = true) :
    ArchivedFileMetadata.decode (encBytes e) =
      .ok ⟨TypeField.str (rstripNul (packS 12 e.file_type.raw)), e.file_size,
        rstripNul (packS 36 e.file_name), e.file_offset, e.file_id⟩ := by
  have hA : (packS 12 e.file_type.raw).length = 12 := packS_length _ _
  have hN : (packS 36 e.file_name).length = 36 := packS_length _ _
  have hform12 : encBytes e = packS 12 e.file_type.raw
      ++ (le32 e.file_size ++ (le32 0 ++ (packS 36 e.file_name
        ++ (le32 e.file_offset ++ le32 e.file_id)))) := by
    simp [encBytes, List.append_assoc]
  have htake12 : (encBytes e).take 12 = packS 12 e.file_type.raw := by
    rw [hform12, List.take_left' hA]
  have h12 : u32at (encBytes e) 12 = e.file_size := by
    have h := u32at_append (packS 12 e.file_type.raw)
      (le32 e.file_size ++ (le32 0 ++ (packS 36 e.file_name
        ++ (le32 e.file_offset ++ le32 e.file_id)))) 0
    rw [hA] at h
    rw [hform12]
    simpa using h.trans (u32at_le32 e.file_size hs _)
  have hform20 : encBytes e =
      (packS 12 e.file_type.raw ++ le32 e.file_size ++ le32 0)
        ++ (packS 36 e.file_name ++ le32 e.file_offset ++ le32 e.file_id) := by
    simp [encBytes, List.append_assoc]
  have hlen20 : (packS 12 e.file_type.raw ++ le32 e.file_size
      ++ le32 0).length = 20 := by
    simp [hA, le32_length]
  have hdrop20 : (encBytes e).drop 20
      = packS 36 e.file_name ++ le32 e.file_offset ++ le32 e.file_id := by
    rw [hform20, List.drop_left' hlen20]
  have htake36 : ((encBytes e).drop 20).take 36 = packS 36 e.file_name := by
    rw [hdrop20, List.append_assoc, List.take_left' hN]
  have hform56 : encBytes e =
      (packS 12 e.file_type.raw ++ le32 e.file_size ++ le32 0
        ++ packS 36 e.file_name) ++ (le32 e.file_offset ++ le32 e.file_id) := by
    simp [encBytes, List.append_assoc]
  have hlen56 : (packS 12 e.file_type.raw ++ le32 e.file_size ++ le32 0
      ++ packS 36 e.file_name).length = 56 := by
    simp [hA, hN, le32_length]
  have h56 : u32at (encBytes e) 56 = e.file_offset := by
    have := u32at_append (packS 12 e.file_type.raw ++ le32 e.file_size
      ++ le32 0 ++ packS 36 e.file_name)
      (le32 e.file_offset ++ le32 e.file_id) 0
    rw [hlen56] at this
    rw [hform56]
    simpa using this.trans (u32at_le32 e.file_offset ho _)
  have hform60 : encBytes e =
      (packS 12 e.file_type.raw ++ le32 e.file_size ++ le32 0
        ++ packS 36 e.file_name ++ le32 e.file_offset)
        ++ (le32 e.file_id ++ []) := by
    simp [encBytes, List.append_assoc]
  have hlen60 : (packS 12 e.file_type.raw ++ le32 e.file_size ++ le32 0
      ++ packS 36 e.file_name ++ le32 e.file_offset).length = 60 := by
    simp [hA, hN, le32_length]
  have h60 : u32at (encBytes e) 60 = e.file_id := by
    have := u32at_append (packS 12 e.file_type.raw ++ le32 e.file_size
      ++ le32 0 ++ packS 36 e.file_name ++ le32 e.file_offset)
      (le32 e.file_id ++ []) 0
    rw [hlen60] at this
    rw [hform60]
    simpa using this.trans (u32at_le32 e.file_id hi _)
  rw [decode_eval (encBytes e) (encBytes_length e)
    (htake12 ▸ ht) (htake36 ▸ hn), htake12, htake36, h12, h56, h60]

theorem buildEntries_ok (l : List InputFile) (pos fid : Nat)
    (h : ∀ f ∈ l, 4 ≤ f.content.length) :
    buildEntries l pos fid
      = .ok ((l.map fun f => f.content).flatten, entriesSpec l pos fid) := by
  induction l generalizing pos fid with
  | nil => rfl
  | cons f rest ih =>
    have hf := h f (List.mem_cons_self f rest)
    have hrest := ih (pos + f.content.length) (fid + 1)
      fun f' hf' => h f' (List.mem_cons_of_mem f hf')
    simp [buildEntries, entriesSpec, Nat.not_lt.mpr hf, hrest]

theorem entriesSpec_length (l : List InputFile) (pos fid : Nat) :
    (entriesSpec l pos fid).length = l.length := by
  induction l generalizing pos fid with
  | nil => rfl
  | cons f rest ih => simp [entriesSpec, ih]

theorem entriesSpec_bounds (l : List InputFile) (pos fid : Nat) :
    ∀ e ∈ entriesSpec l pos fid,
      e.file_size ≤ (l.map fun f => f.content.length).sum
      ∧ e.file_offset + e.file_size
          ≤ pos + (l.map fun f => f.content.length).sum
      ∧ e.file_id < fid + l.length := by
  induction l generalizing pos fid with
  | nil => intro e he; simp [entriesSpec] at he
  | cons f rest ih =>
    intro e he
    rw [entriesSpec] at he
    rcases List.mem_cons.mp he with h0 | hmem
    · subst h0
      simp only [List.map_cons, List.sum_cons, List.length_cons]
      refine ⟨by omega, by omega, by omega⟩
    · obtain ⟨h1, h2, h3⟩ := ih (pos + f.content.length) (fid + 1) e hmem
      simp only [List.map_cons, List.sum_cons, List.length_cons]
      exact ⟨by omega, by omega, by omega⟩

theorem entriesSpec_shape (l : List InputFile) (pos fid : Nat) :
    ∀ e ∈ entriesSpec l pos fid,
      ∃ f ∈ l, e.file_type = TypeField.bytes (f.content.take 4)
        ∧ e.file_name = f.name ∧ e.file_size = f.content.length := by
  induction l generalizing pos fid with
  | nil => intro e he; simp [entriesSpec] at he
  | cons f rest ih =>
    intro e he
    rw [entriesSpec] at he
    rcases List.mem_cons.mp he with h0 | hmem
    · exact ⟨f, List.mem_cons_self f rest, by simp [h0]⟩
    · obtain ⟨f', hf', hprop⟩ := ih (pos + f.content.length) (fid + 1) e hmem
      exact ⟨f', List.mem_cons_of_mem f hf', hprop⟩

theorem flatten_enc_length (es : List ArchivedFileMetadata) :
    ((es.map encBytes).flatten).length = 64 * es.length := by
  induction es with
  | nil => rfl
  | cons e es ih =>
    simp only [List.map_cons, List.flatten_cons, List.length_append,
      encBytes_length, ih, List.length_cons]
    ring

theorem toc_core (es : List ArchivedFileMetadata)
    (h : ∀ e ∈ es, ArchivedFileMetadata.decode (encBytes e)
      = .ok (decEntry e)) :
    exceptMap (fun i => ArchivedFileMetadata.decode
        ((((es.map encBytes).flatten).drop
          (ArchivedFileMetadata.METADATA_SIZE * i)).take
          ArchivedFileMetadata.METADATA_SIZE))
      (List.range es.length) = .ok (es.map decEntry) := by
  induction es with
  | nil => rfl
  | cons e es ih =>
    have he := h e (List.mem_cons_self e es)
    have hrest := ih fun e' he' => h e' (List.mem_cons_of_mem e he')
    rw [List.length_cons, List.range_succ_eq_map]
    rw [exceptMap]
    have hhead : ArchivedFileMetadata.decode
        ((((((e :: es).map encBytes).flatten)).drop
          (ArchivedFileMetadata.METADATA_SIZE * 0)).take
          ArchivedFileMetadata.METADATA_SIZE) = .ok (decEntry e) := by
      simp only [List.map_cons, List.flatten_cons, Nat.mul_zero,
        List.drop_zero, ArchivedFileMetadata.METADATA_SIZE]
      rw [List.take_left' (encBytes_length e)]
      exact he
    rw [hhead]
    have hshift : exceptMap (fun i => ArchivedFileMetadata.decode
        ((((((e :: es).map encBytes).flatten)).drop
          (ArchivedFileMetadata.METADATA_SIZE * Nat.succ i)).take
          ArchivedFileMetadata.METADATA_SIZE))
        (List.range es.length) = .ok (es.map decEntry) := by
      rw [← hrest]
      apply exceptMap_congr
      intro i _
      congr 1
      have hd : (((e :: es).map encBytes).flatten).drop
          (ArchivedFileMetadata.METADATA_SIZE * Nat.succ i)
          = ((es.map encBytes).flatten).drop
            (ArchivedFileMetadata.METADATA_SIZE * i) := by
        simp only [List.map_cons, List.flatten_cons,
          ArchivedFileMetadata.METADATA_SIZE]
        have h64 : 64 * Nat.succ i = 64 + 64 * i := by omega
        rw [h64, ← List.drop_drop, List.drop_left' (encBytes_length e)]
      rw [hd]
    rw [exceptMap_map, hshift]
    rfl

theorem decode_toc_encoded (es : List ArchivedFileMetadata)
    (h : ∀ e ∈ es, ArchivedFileMetadata.decode (encBytes e)
      = .ok (decEntry e)) :
    decode_table_of_contents ((es.map encBytes).flatten) es.length
      = .ok (es.map decEntry) := by
  have hlen : ((es.map encBytes).flatten).length
      = ArchivedFileMetadata.METADATA_SIZE * es.length := by
    rw [flatten_enc_length]
    simp [ArchivedFileMetadata.METADATA_SIZE]
  rw [decode_table_of_contents, if_neg (by simp [hlen])]
  exact toc_core es h

theorem unpack_loop (l : List InputFile) (pos fid : Nat)
    (data post : List Nat)
    (hdata : data.drop pos = (l.map fun f => f.content).flatten ++ post) :
    exceptMap (fun entry =>
        match unpack_file entry data PathState.absent false false with
        | .error e => .error e
        | .ok r => .ok (entry, r))
      ((entriesSpec l pos fid).map decEntry)
      = .ok (unarchSpec l pos fid) := by
  induction l generalizing pos fid with
  | nil => rfl
  | cons f rest ih =>
    have hsplit : data.drop pos
        = f.content ++ ((rest.map fun f => f.content).flatten ++ post) := by
      rw [hdata]
      simp [List.append_assoc]
    have hbuf : (data.drop pos).take f.content.length = f.content := by
      rw [hsplit, List.take_left' rfl]
    have hdata' : data.drop (pos + f.content.length)
        = (rest.map fun f => f.content).flatten ++ post := by
      rw [← List.drop_drop, hsplit, List.drop_left' rfl]
    have hrest := ih (pos + f.content.length) (fid + 1) hdata'
    rw [entriesSpec, List.map_cons, exceptMap]
    have hunpack : unpack_file
        (decEntry ⟨TypeField.bytes (f.content.take 4), f.content.length,
          f.name, pos, fid⟩) data PathState.absent false false
        = .ok (.written f.content) := by
      rw [unpack_file]
      simp only [decEntry, TypeField.raw, hbuf]
      simp [can_modify_file]
    rw [hunpack, hrest]
    rw [unarchSpec]
    simp [decEntry, TypeField.raw]

theorem unarchSpec_names (l : List InputFile) (pos fid : Nat) :
    (unarchSpec l pos fid).map (fun p => p.1.file_name)
      = l.map fun f => rstripNul (packS 36 f.name) := by
  induction l generalizing pos fid with
  | nil => rfl
  | cons f rest ih => simp [unarchSpec, ih]

theorem unarchSpec_sizes (l : List InputFile) (pos fid : Nat) :
    (unarchSpec l pos fid).map (fun p => p.1.file_size)
      = l.map fun f => f.content.length := by
  induction l generalizing pos fid with
  | nil => rfl
  | cons f rest ih => simp [unarchSpec, ih]

theorem unarchSpec_payloads (l : List InputFile) (pos fid : Nat) :
    (unarchSpec l pos fid).map (fun p => p.2)
      = l.map fun f => UnpackResult.written f.content := by
  induction l generalizing pos fid with
  | nil => rfl
  | cons f rest ih => simp [unarchSpec, ih]

theorem u32at_le32_nil (n : Nat) (h : n < 4294967296) :
    u32at (le32 n) 0 = n := by
  have := u32at_le32 n h []
  simpa using this

theorem packS_take (w : Nat) (b : List Nat) : packS w (b.take w) = packS w b := by
  have hc : w - (b.take w).length = w - b.length := by
    simp [List.length_take]
    omega
  rw [packS, packS, List.take_take, hc]
  simp

theorem buildEntries_ok_inv :
    ∀ (l : List InputFile) (pos fid : Nat)
      (pr : List Nat × List ArchivedFileMetadata),
      buildEntries l pos fid = .ok pr → ∀ f ∈ l, 4 ≤ f.content.length
  | [], _, _, _, _, f, hf => by simp at hf
  | f0 :: rest, pos, fid, pr, h, f, hf => by
    rw [buildEntries] at h
    by_cases h4 : f0.content.length < 4
    · rw [if_pos h4] at h
      exact absurd h (by simp)
    · rw [if_neg h4] at h
      rcases List.mem_cons.mp hf with h0 | hmem
      · subst h0
        omega
      · rcases hrec : buildEntries rest (pos + f0.content.length) (fid + 1)
          with e | pr'
        · rw [hrec] at h
          exact absurd h (by simp)
        · exact buildEntries_ok_inv rest (pos + f0.content.length) (fid + 1)
            pr' hrec f hmem

theorem entriesSpec_offset :
    ∀ (l : List InputFile) (pos fid i : Nat)
      (hi : i < (entriesSpec l pos fid).length),
      ((entriesSpec l pos fid).get ⟨i, hi⟩).file_offset
        = pos + ((l.take i).map fun f => f.content.length).sum
  | [], pos, fid, i, hi => by simp [entriesSpec] at hi
  | f :: rest, pos, fid, 0, hi => by simp [entriesSpec]
  | f :: rest, pos, fid, i + 1, hi => by
    have hi' : i < (entriesSpec rest (pos + f.content.length)
        (fid + 1)).length := by
      simpa [entriesSpec] using hi
    have := entriesSpec_offset rest (pos + f.content.length) (fid + 1) i hi'
    simp only [entriesSpec, List.get_cons_succ, List.take_succ_cons,
      List.map_cons, List.sum_cons] at this ⊢
    omega

theorem inputs_eq_of_components :
    ∀ (xs ys : List InputFile), xs.map (fun f => f.name) = ys.map (fun f => f.name) →
      xs.map (fun f => f.content) = ys.map (fun f => f.content) → xs = ys
  | [], [], _, _ => rfl
  | [], y :: ys, hn, _ => by simp at hn
  | x :: xs, [], hn, _ => by simp at hn
  | x :: xs, y :: ys, hn, hc => by
    simp only [List.map_cons, List.cons.injEq] at hn hc
    have htail := inputs_eq_of_components xs ys hn.2 hc.2
    have hhead : x = y := by
      cases x
      cases y
      simp_all
    rw [hhead, htail]

theorem header_bytes_ok (N total : Nat) (hN : N < 4294967296)
    (hT : total < 4294967296) :
    (NresArchiveMetadata.mk 0 N total).bytes
      = .ok (le32 NresArchiveMetadata.SIGNATURE ++ le32 256
        ++ le32 N ++ le32 total) := by
  simp [NresArchiveMetadata.bytes, hN, hT]

theorem header_bytes_len (N total : Nat) :
    (le32 NresArchiveMetadata.SIGNATURE ++ le32 256
      ++ le32 N ++ le32 total).length = 16 := rfl

theorem header_decode_roundtrip (N total : Nat) (hN : N < 4294967296)
    (hT : total < 4294967296) :
    NresArchiveMetadata.decode (le32 NresArchiveMetadata.SIGNATURE
        ++ le32 256 ++ le32 N ++ le32 total)
      = .ok ⟨0, N, total⟩ := by
  have hsiglt : NresArchiveMetadata.SIGNATURE < 4294967296 := by
    rw [NresArchiveMetadata.SIGNATURE]
    omega
  have hform0 : le32 NresArchiveMetadata.SIGNATURE ++ le32 256
      ++ le32 N ++ le32 total
      = le32 NresArchiveMetadata.SIGNATURE
        ++ (le32 256 ++ (le32 N ++ le32 total)) := by
    simp [List.append_assoc]
  have h0 : u32at (le32 NresArchiveMetadata.SIGNATURE ++ le32 256
      ++ le32 N ++ le32 total) 0 = NresArchiveMetadata.SIGNATURE := by
    rw [hform0]
    exact u32at_le32 _ hsiglt _
  have hform8 : le32 NresArchiveMetadata.SIGNATURE ++ le32 256
      ++ le32 N ++ le32 total
      = (le32 NresArchiveMetadata.SIGNATURE ++ le32 256)
        ++ (le32 N ++ le32 total) := by
    simp [List.append_assoc]
  have h8 : u32at (le32 NresArchiveMetadata.SIGNATURE ++ le32 256
      ++ le32 N ++ le32 total) 8 = N := by
    have happ := u32at_append (le32 NresArchiveMetadata.SIGNATURE
      ++ le32 256) (le32 N ++ le32 total) 0
    rw [hform8]
    simpa using happ.trans (u32at_le32 N hN _)
  have hform12 : le32 NresArchiveMetadata.SIGNATURE ++ le32 256
      ++ le32 N ++ le32 total
      = (le32 NresArchiveMetadata.SIGNATURE ++ le32 256 ++ le32 N)
        ++ (le32 total ++ []) := by
    simp [List.append_assoc]
  have h12 : u32at (le32 NresArchiveMetadata.SIGNATURE ++ le32 256
      ++ le32 N ++ le32 total) 12 = total := by
    have happ := u32at_append (le32 NresArchiveMetadata.SIGNATURE
      ++ le32 256 ++ le32 N) (le32 total ++ []) 0
    rw [hform12]
    simpa using happ.trans (u32at_le32 total hT _)
  rw [header_decode_eval _ (header_bytes_len N total) h0, h8, h12]

theorem entriesSpec_encodes (inputs : List InputFile)
    (hN : inputs.length < 4294967296)
    (hT : 16 + (inputs.map fun g => g.content.length).sum
      + inputs.length * 64 < 4294967296) :
    exceptMap ArchivedFileMetadata.bytes (entriesSpec inputs 16 0)
      = .ok ((entriesSpec inputs 16 0).map encBytes) := by
  apply exceptMap_ok_of
  intro e he
  obtain ⟨g, _, ht, _, _⟩ := entriesSpec_shape inputs 16 0 e he
  obtain ⟨h1, h2, h3⟩ := entriesSpec_bounds inputs 16 0 e he
  exact bytes_ok e _ ht (by omega) (by omega) (by omega)

theorem archive_ok_shape (inputs : List InputFile) (st : PathState)
    (d f : Bool) (out : List Nat)
    (h : archive inputs st d f = .ok (some out)) :
    (∀ g ∈ inputs, 4 ≤ g.content.length)
    ∧ inputs.length < 4294967296
    ∧ 16 + (inputs.map fun g => g.content.length).sum
        + inputs.length * 64 < 4294967296
    ∧ out = le32 NresArchiveMetadata.SIGNATURE ++ le32 256
        ++ le32 inputs.length
        ++ le32 (16 + (inputs.map fun g => g.content.length).sum
          + inputs.length * 64)
      ++ (inputs.map fun g => g.content).flatten
      ++ ((entriesSpec inputs 16 0).map encBytes).flatten := by
  simp only [archive, NresArchiveMetadata.METADATA_SIZE,
    ArchivedFileMetadata.METADATA_SIZE] at h
  by_cases hcm : can_modify_file st f = false
  · rw [if_pos hcm] at h
    simp at h
  · rw [if_neg hcm] at h
    rcases hhb : (NresArchiveMetadata.mk 0 inputs.length
        (16 + (inputs.map fun g => g.content.length).sum
          + inputs.length * 64)).bytes with e | hb
    · rw [hhb] at h
      simp at h
    · rw [hhb] at h
      rw [NresArchiveMetadata.bytes] at hhb
      by_cases hbnd : (NresArchiveMetadata.mk 0 inputs.length
          (16 + (inputs.map fun g => g.content.length).sum
            + inputs.length * 64)).file_count < 4294967296
          ∧ (NresArchiveMetadata.mk 0 inputs.length
            (16 + (inputs.map fun g => g.content.length).sum
              + inputs.length * 64)).archive_size < 4294967296
      · rw [if_pos hbnd] at hhb
        obtain ⟨hN, hT⟩ := hbnd
        have hbeq : hb = le32 NresArchiveMetadata.SIGNATURE ++ le32 256
            ++ le32 inputs.length
            ++ le32 (16 + (inputs.map fun g => g.content.length).sum
              + inputs.length * 64) := by
          injection hhb with h'
          exact h'.symm
        have hblen : hb.length = 16 := by
          rw [hbeq]
          exact header_bytes_len _ _
        simp only [] at h
        rw [hblen] at h
        rcases hbe : buildEntries inputs 16 0 with e | pr
        · rw [hbe] at h
          simp at h
        · have h4 := buildEntries_ok_inv inputs 16 0 pr hbe
          have hok := buildEntries_ok inputs 16 0 h4
          rw [hok] at h
          simp only [] at h
          rw [entriesSpec_encodes inputs hN hT] at h
          simp only [Except.ok.injEq, Option.some.injEq] at h
          refine ⟨h4, hN, hT, ?_⟩
          rw [← h, hbeq]
      · rw [if_neg hbnd] at hhb
        exact absurd hhb (by simp)

theorem map_len_enc (es : List ArchivedFileMetadata) :
    (List.map (List.length ∘ encBytes) es).sum = 64 * es.length := by
  rw [← List.map_map, ← List.length_flatten, flatten_enc_length]

/-- C7: for every successfully built archive the archive_size field
written in the header (the fourth little-endian u32 of the stream) equals
16 plus the sum of the input sizes plus 64 per file, and the emitted
stream has exactly that many bytes. -/
theorem c7_archive_size_invariant (inputs : List InputFile) (st : PathState)
    (d f : Bool) (out : List Nat)
    (h : archive inputs st d f = .ok (some out)) :
    out.length = 16 + (inputs.map fun g => g.content.length).sum
      + inputs.length * 64
    ∧ u32at out 12 = 16 + (inputs.map fun g => g.content.length).sum
      + inputs.length * 64 := by
  obtain ⟨h4, hN, hT, hout⟩ := archive_ok_shape inputs st d f out h
  constructor
  · rw [hout]
    simp only [List.length_append, le32_length, List.length_flatten,
      List.map_map]
    rw [map_len_enc, entriesSpec_length]
    have hpay : (List.map (List.length ∘ fun g => g.content) inputs).sum
        = (inputs.map fun g => g.content.length).sum := rfl
    rw [hpay]
    omega
  · have hform : out = (le32 NresArchiveMetadata.SIGNATURE ++ le32 256
        ++ le32 inputs.length)
        ++ (le32 (16 + (inputs.map fun g => g.content.length).sum
            + inputs.length * 64)
          ++ ((inputs.map fun g => g.content).flatten
            ++ ((entriesSpec inputs 16 0).map encBytes).flatten)) := by
      rw [hout]
      simp [List.append_assoc]
    have hpre : (le32 NresArchiveMetadata.SIGNATURE ++ le32 256
        ++ le32 inputs.length).length = 12 := rfl
    have happ := u32at_append (le32 NresArchiveMetadata.SIGNATURE ++ le32 256
        ++ le32 inputs.length)
      (le32 (16 + (inputs.map fun g => g.content.length).sum
          + inputs.length * 64)
        ++ ((inputs.map fun g => g.content).flatten
          ++ ((entriesSpec inputs 16 0).map encBytes).flatten)) 0
    rw [hpre] at happ
    rw [hform]
    simpa using happ.trans (u32at_le32 _ hT _)

/-- C7 witness: one 5-byte input yields an 85-byte archive whose header
size field reads 85. -/
theorem c7_archive_size_invariant_witness :
    archive [⟨[120], [1, 2, 3, 4, 5]⟩] PathState.absent false false
      = .ok (some (((archive [⟨[120], [1, 2, 3, 4, 5]⟩] PathState.absent
        false false).toOption.bind id).getD []))
    ∧ ((((archive [⟨[120], [1, 2, 3, 4, 5]⟩] PathState.absent
          false false).toOption.bind id).getD []).length
        = 16 + ([(⟨[120], [1, 2, 3, 4, 5]⟩ : InputFile)].map
            fun g => g.content.length).sum + 1 * 64
      ∧ u32at (((archive [⟨[120], [1, 2, 3, 4, 5]⟩] PathState.absent
          false false).toOption.bind id).getD []) 12
        = 16 + ([(⟨[120], [1, 2, 3, 4, 5]⟩ : InputFile)].map
            fun g => g.content.length).sum + 1 * 64) :=
  ⟨by decide, c7_archive_size_invariant [⟨[120], [1, 2, 3, 4, 5]⟩]
    PathState.absent false false _ (by decide)⟩

/-- C8: in the writer's TOC-building loop, the i-th entry records
file_offset equal to 16 plus the sizes of all earlier inputs — payloads
are laid out contiguously right after the 16-byte header, in input
order. -/
theorem c8_offset_invariant (inputs : List InputFile) (payload : List Nat)
    (entries : List ArchivedFileMetadata)
    (h : buildEntries inputs 16 0 = .ok (payload, entries))
    (i : Nat) (hi : i < entries.length) :
    (entries.get ⟨i, hi⟩).file_offset
      = 16 + ((inputs.take i).map fun g => g.content.length).sum := by
  have h4 := buildEntries_ok_inv inputs 16 0 (payload, entries) h
  have hok := buildEntries_ok inputs 16 0 h4
  rw [h] at hok
  have hent : entries = entriesSpec inputs 16 0 := by
    injection hok with h'
    injection h' with h1 h2
  subst hent
  exact entriesSpec_offset inputs 16 0 i hi

/-- C8 witness: for an 8-byte then 4-byte input the second TOC entry sits
at offset 24 = 16 + 8. -/
theorem c8_offset_invariant_witness :
    buildEntries [⟨[97], [1, 2, 3, 4, 5, 6, 7, 8]⟩, ⟨[98], [5, 6, 7, 8]⟩]
        16 0
      = .ok ([1, 2, 3, 4, 5, 6, 7, 8, 5, 6, 7, 8],
        [⟨TypeField.bytes [1, 2, 3, 4], 8, [97], 16, 0⟩,
          ⟨TypeField.bytes [5, 6, 7, 8], 4, [98], 24, 1⟩])
    ∧ (([⟨TypeField.bytes [1, 2, 3, 4], 8, [97], 16, 0⟩,
          ⟨TypeField.bytes [5, 6, 7, 8], 4, [98], 24, 1⟩]
        : List ArchivedFileMetadata).get ⟨1, by decide⟩).file_offset
      = 16 + (([(⟨[97], [1, 2, 3, 4, 5, 6, 7, 8]⟩ : InputFile),
          ⟨[98], [5, 6, 7, 8]⟩].take 1).map fun g => g.content.length).sum :=
  ⟨by decide, c8_offset_invariant
    [⟨[97], [1, 2, 3, 4, 5, 6, 7, 8]⟩, ⟨[98], [5, 6, 7, 8]⟩]
    [1, 2, 3, 4, 5, 6, 7, 8, 5, 6, 7, 8]
    [⟨TypeField.bytes [1, 2, 3, 4], 8, [97], 16, 0⟩,
      ⟨TypeField.bytes [5, 6, 7, 8], 4, [98], 24, 1⟩]
    (by decide) 1 (by decide)⟩

/-- C6: NresArchiveMetadata.decode rejects every buffer that is not
exactly 16 bytes with a bad-size error, rejects any 16-byte buffer whose
first little-endian u32 is not 0x7365524E with a bad-signature error
regardless of the other three fields, and otherwise succeeds with
file_count read from the third and archive_size from the fourth
little-endian u32 — it coincides with the specification's decoder on
every input. -/
theorem c6_header_decode_matches_spec (buffer : List Nat) :
    NresArchiveMetadata.decode buffer = specDecodeHeader buffer := rfl

/-- C3: the dry-run flag is honored by unpack_file (no bytes written) and
by create_directory_if_needed (no directory created), but archive ignores
it entirely: building with dry_run set produces exactly the same write as
building without it, and on a concrete one-file input it writes an 84-byte
archive to disk despite dry_run being set.  This contradicts the claimed
simulate-only mode for the archive-build operation. -/
theorem c3_dry_run_ignored_by_archive :
    (∀ (inputs : List InputFile) (st : PathState) (force : Bool),
      archive inputs st true force = archive inputs st false force)
    ∧ ((archive [⟨[97, 46, 116, 120, 116], [65, 66, 67, 68]⟩]
        PathState.absent true false).toOption.bind id).map List.length
      = some 84
    ∧ unpack_file ⟨TypeField.str [], 2, [99], 0, 0⟩ [5, 6, 7, 8]
        PathState.absent true false = .ok .dryRun
    ∧ create_directory_if_needed PathState.absent true = .ok false
    ∧ create_directory_if_needed PathState.absent false = .ok true :=
  ⟨fun _ _ _ => rfl, by decide, by decide, rfl, rfl⟩

/-- C4 counterexample: an entry whose file_name is 40 bytes long encodes
without any error — the claimed FieldTooLong rejection does not happen;
the encoder instead silently truncates the name to the 36-byte slot. -/
theorem c4_counterexample :
    (ArchivedFileMetadata.mk (TypeField.bytes [1, 2, 3, 4]) 4
        (List.replicate 40 97) 16 0).bytes
      = .ok (encBytes (ArchivedFileMetadata.mk (TypeField.bytes [1, 2, 3, 4]) 4
        (List.replicate 40 97) 16 0))
    ∧ ((encBytes (ArchivedFileMetadata.mk (TypeField.bytes [1, 2, 3, 4]) 4
        (List.replicate 40 97) 16 0)).drop 20).take 36
      = List.replicate 36 97 := by
  constructor
  · decide
  · decide

/-- C4 amended: ArchivedFileMetadata.bytes never raises on oversized
file_type or file_name; struct.pack truncates each field to its
fixed-width slot, so an entry encodes exactly as the entry with the
fields pre-truncated to 12 and 36 bytes does, and encoding succeeds
whenever the numeric fields fit in u32. -/
theorem c4_amended_silent_truncation (tb nm : List Nat) (s o i : Nat)
    (hs : s < 4294967296) (ho : o < 4294967296) (hi : i < 4294967296) :
    (ArchivedFileMetadata.mk (TypeField.bytes tb) s nm o i).bytes
      = (ArchivedFileMetadata.mk (TypeField.bytes (tb.take 12)) s
        (nm.take 36) o i).bytes
    ∧ ∃ r, (ArchivedFileMetadata.mk (TypeField.bytes tb) s nm o i).bytes
      = .ok r := by
  constructor
  · rw [bytes_ok _ tb rfl hs ho hi, bytes_ok _ (tb.take 12) rfl hs ho hi]
    simp only [encBytes, TypeField.raw, packS_take]
  · exact ⟨_, bytes_ok _ tb rfl hs ho hi⟩

/-- C4 amended, witness: a 14-byte type tag and a 40-byte name encode
with no error and encode identically to their truncations. -/
theorem c4_amended_witness :
    (3 : Nat) < 4294967296 ∧ (20 : Nat) < 4294967296 ∧ (7 : Nat) < 4294967296
    ∧ ((ArchivedFileMetadata.mk (TypeField.bytes (List.replicate 14 66)) 3
        (List.replicate 40 98) 20 7).bytes
      = (ArchivedFileMetadata.mk
          (TypeField.bytes ((List.replicate 14 66).take 12)) 3
          ((List.replicate 40 98).take 36) 20 7).bytes
      ∧ ∃ r, (ArchivedFileMetadata.mk (TypeField.bytes (List.replicate 14 66))
          3 (List.replicate 40 98) 20 7).bytes = .ok r) :=
  ⟨by decide, by decide, by decide,
    c4_amended_silent_truncation (List.replicate 14 66)
      (List.replicate 40 98) 3 20 7 (by decide) (by decide) (by decide)⟩

/-- C5 counterexample: c5data declares file_count 1 and archive_size 64,
so the computed TOC position is 0, far below the 16-byte header boundary —
yet unarchive raises no error at all: it decodes one entry out of the
header region and extracts it.  The claimed InvalidHeader rejection does
not exist in the code. -/
theorem c5_counterexample :
    (NresArchiveMetadata.decode (c5data.take 16)).toOption.map
        (fun hdr => hdr.archive_size - hdr.file_count * 64) = some 0
    ∧ (unarchive c5data (fun _ => PathState.absent) false false).toOption.map
        List.length = some 1 := by
  constructor
  · decide
  · decide

/-- C5 amended: unarchive computes the TOC position as
archive_size - file_count * 64 and uses it with no validation: whenever
the subtraction does not go negative (the only failure, an OS-level seek
error), processing continues directly to reading and decoding the TOC at
that position, even when it lies inside the 16-byte header. -/
theorem c5_no_toc_offset_validation (data : List Nat)
    (fs : List Nat → PathState) (d f : Bool) (hdr : NresArchiveMetadata)
    (hd : NresArchiveMetadata.decode
      (data.take NresArchiveMetadata.METADATA_SIZE) = .ok hdr)
    (hle : hdr.file_count * ArchivedFileMetadata.METADATA_SIZE
      ≤ hdr.archive_size) :
    unarchive data fs d f
      = match decode_table_of_contents
          ((data.drop (hdr.archive_size
            - hdr.file_count * ArchivedFileMetadata.METADATA_SIZE)).take
            (hdr.file_count * ArchivedFileMetadata.METADATA_SIZE))
          hdr.file_count with
        | .error e => .error e
        | .ok toc => exceptMap (fun entry =>
            match unpack_file entry data (fs entry.file_name) d f with
            | .error e => .error e
            | .ok r => .ok (entry, r)) toc := by
  simp only [unarchive, hd]
  rw [if_neg (Nat.not_lt.mpr hle)]

/-- C5 amended, witness: on a concrete archive whose TOC position is 0 the
unarchive call equals the unvalidated TOC-read pipeline. -/
theorem c5_no_toc_offset_validation_witness :
    NresArchiveMetadata.decode (c5w.take NresArchiveMetadata.METADATA_SIZE)
      = .ok ⟨0, 1, 64⟩
    ∧ (⟨0, 1, 64⟩ : NresArchiveMetadata).file_count
        * ArchivedFileMetadata.METADATA_SIZE
      ≤ (⟨0, 1, 64⟩ : NresArchiveMetadata).archive_size
    ∧ unarchive c5w (fun _ => PathState.absent) false false
      = match decode_table_of_contents
          ((c5w.drop ((⟨0, 1, 64⟩ : NresArchiveMetadata).archive_size
            - (⟨0, 1, 64⟩ : NresArchiveMetadata).file_count
              * ArchivedFileMetadata.METADATA_SIZE)).take
            ((⟨0, 1, 64⟩ : NresArchiveMetadata).file_count
              * ArchivedFileMetadata.METADATA_SIZE))
          (⟨0, 1, 64⟩ : NresArchiveMetadata).file_count with
        | .error e => .error e
        | .ok toc => exceptMap (fun entry =>
            match unpack_file entry c5w
                ((fun _ => PathState.absent) entry.file_name) false false with
            | .error e => .error e
            | .ok r => .ok (entry, r)) toc :=
  ⟨by decide, by decide, c5_no_toc_offset_validation c5w
    (fun _ => PathState.absent) false false ⟨0, 1, 64⟩ (by decide) (by decide)⟩

/-- C2 counterexample: in c2data the first TOC entry declares 200 bytes
where only 136 are available while the second entry is well formed; the
whole unarchive call aborts with the short-read error and the well-formed
entry is never extracted, contradicting the claimed per-entry recovery. -/
theorem c2_counterexample :
    unarchive c2data (fun _ => PathState.absent) false false
      = .error (PyErr.shortRead 200 136) := by decide

/-- C2 amended: a TOC entry whose declared file_size exceeds the bytes
available at its offset makes unpack_file raise, and the exception
propagates out of unarchive: if the entries before index i all have their
declared bytes available and entry i does not, the whole unarchive call
returns the short-read error of entry i, so no later entry is attempted
(recovery exists only per archive, in the CLI caller). -/
theorem c2_short_read_aborts_unarchive (data : List Nat)
    (fs : List Nat → PathState) (d f : Bool) (hdr : NresArchiveMetadata)
    (toc : List ArchivedFileMetadata)
    (hd : NresArchiveMetadata.decode
      (data.take NresArchiveMetadata.METADATA_SIZE) = .ok hdr)
    (hle : hdr.file_count * ArchivedFileMetadata.METADATA_SIZE
      ≤ hdr.archive_size)
    (htoc : decode_table_of_contents
      ((data.drop (hdr.archive_size
        - hdr.file_count * ArchivedFileMetadata.METADATA_SIZE)).take
        (hdr.file_count * ArchivedFileMetadata.METADATA_SIZE))
      hdr.file_count = .ok toc)
    (i : Nat) (hi : i < toc.length)
    (hshort : ((data.drop (toc.get ⟨i, hi⟩).file_offset).take
        (toc.get ⟨i, hi⟩).file_size).length ≠ (toc.get ⟨i, hi⟩).file_size)
    (hok : ∀ j (hj : j < i),
      ((data.drop (toc.get ⟨j, Nat.lt_trans hj hi⟩).file_offset).take
          (toc.get ⟨j, Nat.lt_trans hj hi⟩).file_size).length
        = (toc.get ⟨j, Nat.lt_trans hj hi⟩).file_size) :
    unarchive data fs d f = .error (PyErr.shortRead
      (toc.get ⟨i, hi⟩).file_size
      ((data.drop (toc.get ⟨i, hi⟩).file_offset).take
        (toc.get ⟨i, hi⟩).file_size).length) := by
  simp only [unarchive, hd]
  rw [if_neg (Nat.not_lt.mpr hle), htoc]
  simp only []
  refine exceptMap_error_at _ _ toc i hi ?_ ?_
  · intro j hj
    have hlen := hok j hj
    have hup : ∃ r, unpack_file (toc.get ⟨j, Nat.lt_trans hj hi⟩) data
        (fs (toc.get ⟨j, Nat.lt_trans hj hi⟩).file_name) d f = .ok r := by
      simp only [unpack_file]
      rw [if_neg (fun hc => hc hlen)]
      split
      · exact ⟨_, rfl⟩
      · split
        · exact ⟨_, rfl⟩
        · exact ⟨_, rfl⟩
    obtain ⟨r, hr⟩ := hup
    exact ⟨_, by rw [hr]⟩
  · simp only [unpack_file]
    rw [if_pos hshort]

/-- C2 amended, witness: in c2w entry 0 is intact and entry 1 declares
999 bytes with 132 available; the whole unarchive returns that entry's
short-read error. -/
theorem c2_short_read_aborts_unarchive_witness :
    NresArchiveMetadata.decode (c2w.take NresArchiveMetadata.METADATA_SIZE)
      = .ok ⟨0, 2, 148⟩
    ∧ (⟨0, 2, 148⟩ : NresArchiveMetadata).file_count
        * ArchivedFileMetadata.METADATA_SIZE
      ≤ (⟨0, 2, 148⟩ : NresArchiveMetadata).archive_size
    ∧ decode_table_of_contents
        ((c2w.drop ((⟨0, 2, 148⟩ : NresArchiveMetadata).archive_size
          - (⟨0, 2, 148⟩ : NresArchiveMetadata).file_count
            * ArchivedFileMetadata.METADATA_SIZE)).take
          ((⟨0, 2, 148⟩ : NresArchiveMetadata).file_count
            * ArchivedFileMetadata.METADATA_SIZE))
        (⟨0, 2, 148⟩ : NresArchiveMetadata).file_count
      = .ok [⟨TypeField.str [], 4, [], 16, 0⟩,
          ⟨TypeField.str [], 999, [], 16, 1⟩]
    ∧ unarchive c2w (fun _ => PathState.absent) false false
      = .error (PyErr.shortRead 999 132) := by
  refine ⟨by decide, by decide, by decide, ?_⟩
  have happ := c2_short_read_aborts_unarchive c2w
    (fun _ => PathState.absent) false false ⟨0, 2, 148⟩
    [⟨TypeField.str [], 4, [], 16, 0⟩, ⟨TypeField.str [], 999, [], 16, 1⟩]
    (by decide) (by decide) (by decide) 1 (by decide) (by decide)
    (fun j hj => by
      have hj0 : j = 0 := by omega
      subst hj0
      exact (by decide : ((c2w.drop 16).take 4).length = 4))
  exact happ.trans (by decide)

/-- C10: every 64-byte buffer that ArchivedFileMetadata.decode accepts
yields an entry whose file_type is held as a str (the UTF-8 decode of the
field), and struct.pack's bytes-only `s` slot then rejects it: re-encoding
any decoded entry — in particular one whose type field has a non-NUL
byte — fails with the struct argument error, while entries built by the
writer, whose file_type is raw bytes, encode successfully whenever the
numeric fields fit in u32. -/
theorem c10_reencode_of_decoded_fails :
    (∀ (buffer : List Nat) (e : ArchivedFileMetadata),
        ArchivedFileMetadata.decode buffer = .ok e →
        (∃ b ∈ buffer.take 12, b ≠ 0) →
        e.bytes = .error PyErr.structArgError)
    ∧ ∀ (tb nm : List Nat) (s o i : Nat),
        s < 4294967296 → o < 4294967296 → i < 4294967296 →
        ∃ r, (ArchivedFileMetadata.mk (TypeField.bytes tb) s nm o i).bytes
          = .ok r := by
  constructor
  · intro buffer e hdec _
    have hstr : ∃ s, e.file_type = TypeField.str s := by
      simp only [ArchivedFileMetadata.decode] at hdec
      split at hdec
      · exact absurd hdec (by simp)
      · split at hdec
        · exact absurd hdec (by simp)
        · split at hdec
          · exact absurd hdec (by simp)
          · injection hdec with h'
            exact ⟨_, by rw [← h']⟩
    obtain ⟨s, hs⟩ := hstr
    simp only [ArchivedFileMetadata.bytes, hs]
  · intro tb nm s o i hsz ho hi
    exact ⟨_, bytes_ok _ tb rfl hsz ho hi⟩

/-- C10 witness: a concrete decoded entry with type tag TYPE fails to
re-encode with the struct argument error, while a writer-built entry with
a bytes type tag encodes fine. -/
theorem c10_reencode_of_decoded_fails_witness :
    ArchivedFileMetadata.decode c10buf
      = .ok ⟨TypeField.str [84, 89, 80, 69], 4, [97], 16, 0⟩
    ∧ (∃ b ∈ c10buf.take 12, b ≠ 0)
    ∧ (ArchivedFileMetadata.mk (TypeField.str [84, 89, 80, 69]) 4 [97]
        16 0).bytes = .error PyErr.structArgError
    ∧ ∃ r, (ArchivedFileMetadata.mk (TypeField.bytes [78, 82, 101, 115])
        10 [100] 24 2).bytes = .ok r :=
  ⟨by decide, by decide,
    c10_reencode_of_decoded_fails.1 c10buf
      ⟨TypeField.str [84, 89, 80, 69], 4, [97], 16, 0⟩ (by decide) (by decide),
    c10_reencode_of_decoded_fails.2 [78, 82, 101, 115] [100] 10 24 2
      (by decide) (by decide) (by decide)⟩

/-- C1 counterexample: a file whose content starts with four 0xFF bytes
archives successfully, but decoding that archive fails with a
UnicodeDecodeError while parsing the TOC (the type field is decoded as
UTF-8 text), so the round trip does not hold for arbitrary byte
content. -/
theorem c1_counterexample :
    ((archive [⟨[97, 46, 98, 105, 110], [255, 255, 255, 255]⟩]
        PathState.absent false false).toOption.bind id).map
      (fun out => unarchive out (fun _ => PathState.absent) false false)
      = some (.error PyErr.unicodeDecodeError) := by decide

/-- C1 amended: the round trip holds for every list of inputs of at least
4 bytes each whose derived 12-byte type field and 36-byte name field are
valid UTF-8 and whose names fit the 36-byte slot with no trailing NUL:
decoding the archive that archive() builds reproduces the same file
names, the same sizes and byte-for-byte identical payloads, in input
order. -/
theorem c1_round_trip (inputs : List InputFile) (out : List Nat)
    (h4 : ∀ g ∈ inputs, 4 ≤ g.content.length)
    (htype : ∀ g ∈ inputs, validUtf8 (packS 12 (g.content.take 4)) = true)
    (hnameu : ∀ g ∈ inputs, validUtf8 (packS 36 g.name) = true)
    (hname36 : ∀ g ∈ inputs, g.name.length ≤ 36)
    (hnames : ∀ g ∈ inputs, rstripNul g.name = g.name)
    (hbuild : archive inputs PathState.absent false false = .ok (some out)) :
    ∃ rs, unarchive out (fun _ => PathState.absent) false false = .ok rs
      ∧ rs.map (fun p => p.1.file_name) = inputs.map (fun g => g.name)
      ∧ rs.map (fun p => p.1.file_size)
          = inputs.map (fun g => g.content.length)
      ∧ rs.map (fun p => p.2)
          = inputs.map (fun g => UnpackResult.written g.content) := by
  obtain ⟨_, hN, hT, hout⟩ :=
    archive_ok_shape inputs PathState.absent false false out hbuild
  refine ⟨unarchSpec inputs 16 0, ?_, ?_, ?_, ?_⟩
  · -- the decode pipeline inverts the build
    have hform16 : out = (le32 NresArchiveMetadata.SIGNATURE ++ le32 256
        ++ le32 inputs.length
        ++ le32 (16 + (inputs.map fun g => g.content.length).sum
          + inputs.length * 64))
        ++ ((inputs.map fun g => g.content).flatten
          ++ ((entriesSpec inputs 16 0).map encBytes).flatten) := by
      rw [hout]
      simp [List.append_assoc]
    have htake16 : out.take 16 = le32 NresArchiveMetadata.SIGNATURE
        ++ le32 256 ++ le32 inputs.length
        ++ le32 (16 + (inputs.map fun g => g.content.length).sum
          + inputs.length * 64) := by
      rw [hform16, List.take_left' (header_bytes_len _ _)]
    have hdec : NresArchiveMetadata.decode (out.take 16)
        = .ok ⟨0, inputs.length,
          16 + (inputs.map fun g => g.content.length).sum
            + inputs.length * 64⟩ := by
      rw [htake16]
      exact header_decode_roundtrip _ _ hN hT
    have hdrop16 : out.drop 16 = (inputs.map fun g => g.content).flatten
        ++ ((entriesSpec inputs 16 0).map encBytes).flatten := by
      rw [hform16, List.drop_left' (header_bytes_len _ _)]
    have hpay : (List.map (List.length ∘ fun g => g.content) inputs).sum
        = (inputs.map fun g => g.content.length).sum := rfl
    have hlenHP : ((le32 NresArchiveMetadata.SIGNATURE ++ le32 256
        ++ le32 inputs.length
        ++ le32 (16 + (inputs.map fun g => g.content.length).sum
          + inputs.length * 64))
        ++ (inputs.map fun g => g.content).flatten).length
        = 16 + (inputs.map fun g => g.content.length).sum := by
      simp only [List.length_append, le32_length, List.length_flatten,
        List.map_map]
      rw [hpay]
    have hform2 : out = ((le32 NresArchiveMetadata.SIGNATURE ++ le32 256
        ++ le32 inputs.length
        ++ le32 (16 + (inputs.map fun g => g.content.length).sum
          + inputs.length * 64))
        ++ (inputs.map fun g => g.content).flatten)
        ++ ((entriesSpec inputs 16 0).map encBytes).flatten := by
      rw [hout]
    have hofflen : ((entriesSpec inputs 16 0).map encBytes).flatten.length
        = 64 * inputs.length := by
      rw [flatten_enc_length, entriesSpec_length]
    have hslice : (out.drop (16 + (inputs.map fun g => g.content.length).sum)).take
          (inputs.length * 64)
        = ((entriesSpec inputs 16 0).map encBytes).flatten := by
      rw [hform2, List.drop_left' hlenHP]
      exact List.take_of_length_le (by omega)
    have hperentry : ∀ e ∈ entriesSpec inputs 16 0,
        ArchivedFileMetadata.decode (encBytes e) = .ok (decEntry e) := by
      intro e he
      obtain ⟨g, hg, ht, hn, hsz⟩ := entriesSpec_shape inputs 16 0 e he
      obtain ⟨h1, h2, h3⟩ := entriesSpec_bounds inputs 16 0 e he
      refine decode_encBytes e (by omega) (by omega) (by omega) ?_ ?_
      · rw [ht]
        exact htype g hg
      · rw [hn]
        exact hnameu g hg
    have htoc : decode_table_of_contents
        ((out.drop (16 + (inputs.map fun g => g.content.length).sum)).take
          (inputs.length * 64)) inputs.length
        = .ok ((entriesSpec inputs 16 0).map decEntry) := by
      rw [hslice]
      have := decode_toc_encoded (entriesSpec inputs 16 0) hperentry
      rw [entriesSpec_length] at this
      exact this
    have hunp := unpack_loop inputs 16 0 out
      (((entriesSpec inputs 16 0).map encBytes).flatten) hdrop16
    simp only [unarchive, NresArchiveMetadata.METADATA_SIZE,
      ArchivedFileMetadata.METADATA_SIZE, hdec]
    rw [if_neg (by omega)]
    have hoff : 16 + (inputs.map fun g => g.content.length).sum
        + inputs.length * 64 - inputs.length * 64
        = 16 + (inputs.map fun g => g.content.length).sum := by omega
    rw [hoff, htoc]
    simp only []
    exact hunp
  · rw [unarchSpec_names]
    exact List.map_congr_left fun g hg =>
      rstripNul_packS 36 g.name (hname36 g hg) (hnames g hg)
  · rw [unarchSpec_sizes]
  · rw [unarchSpec_payloads]

/-- C1 amended, witness: the specification's own concrete scenario — an
8-byte a.txt and a 4-byte b.bin — round-trips exactly. -/
theorem c1_round_trip_witness :
    (∀ g ∈ [(⟨[97, 46, 116, 120, 116], [65, 66, 67, 68, 69, 70, 71, 72]⟩
        : InputFile), ⟨[98, 46, 98, 105, 110], [87, 88, 89, 90]⟩],
      4 ≤ g.content.length)
    ∧ (∀ g ∈ [(⟨[97, 46, 116, 120, 116], [65, 66, 67, 68, 69, 70, 71, 72]⟩
        : InputFile), ⟨[98, 46, 98, 105, 110], [87, 88, 89, 90]⟩],
      validUtf8 (packS 12 (g.content.take 4)) = true)
    ∧ (∀ g ∈ [(⟨[97, 46, 116, 120, 116], [65, 66, 67, 68, 69, 70, 71, 72]⟩
        : InputFile), ⟨[98, 46, 98, 105, 110], [87, 88, 89, 90]⟩],
      validUtf8 (packS 36 g.name) = true)
    ∧ (∀ g ∈ [(⟨[97, 46, 116, 120, 116], [65, 66, 67, 68, 69, 70, 71, 72]⟩
        : InputFile), ⟨[98, 46, 98, 105, 110], [87, 88, 89, 90]⟩],
      g.name.length ≤ 36)
    ∧ (∀ g ∈ [(⟨[97, 46, 116, 120, 116], [65, 66, 67, 68, 69, 70, 71, 72]⟩
        : InputFile), ⟨[98, 46, 98, 105, 110], [87, 88, 89, 90]⟩],
      rstripNul g.name = g.name)
    ∧ archive [⟨[97, 46, 116, 120, 116], [65, 66, 67, 68, 69, 70, 71, 72]⟩,
        ⟨[98, 46, 98, 105, 110], [87, 88, 89, 90]⟩] PathState.absent false
        false
      = .ok (some (((archive [⟨[97, 46, 116, 120, 116],
          [65, 66, 67, 68, 69, 70, 71, 72]⟩,
          ⟨[98, 46, 98, 105, 110], [87, 88, 89, 90]⟩] PathState.absent false
          false).toOption.bind id).getD []))
    ∧ ∃ rs, unarchive (((archive [⟨[97, 46, 116, 120, 116],
          [65, 66, 67, 68, 69, 70, 71, 72]⟩,
          ⟨[98, 46, 98, 105, 110], [87, 88, 89, 90]⟩] PathState.absent false
          false).toOption.bind id).getD [])
        (fun _ => PathState.absent) false false = .ok rs
      ∧ rs.map (fun p => p.1.file_name)
        = [(⟨[97, 46, 116, 120, 116], [65, 66, 67, 68, 69, 70, 71, 72]⟩
          : InputFile), ⟨[98, 46, 98, 105, 110], [87, 88, 89, 90]⟩].map
          (fun g => g.name)
      ∧ rs.map (fun p => p.1.file_size)
        = [(⟨[97, 46, 116, 120, 116], [65, 66, 67, 68, 69, 70, 71, 72]⟩
          : InputFile), ⟨[98, 46, 98, 105, 110], [87, 88, 89, 90]⟩].map
          (fun g => g.content.length)
      ∧ rs.map (fun p => p.2)
        = [(⟨[97, 46, 116, 120, 116], [65, 66, 67, 68, 69, 70, 71, 72]⟩
          : InputFile), ⟨[98, 46, 98, 105, 110], [87, 88, 89, 90]⟩].map
          (fun g => UnpackResult.written g.content) :=
  ⟨by decide, by decide, by decide, by decide, by decide, by decide,
    c1_round_trip [⟨[97, 46, 116, 120, 116], [65, 66, 67, 68, 69, 70, 71, 72]⟩,
      ⟨[98, 46, 98, 105, 110], [87, 88, 89, 90]⟩] _ (by decide) (by decide)
      (by decide) (by decide) (by decide) (by decide)⟩

/-- C9: archiving is deterministic — two input lists with identical names,
contents and order produce identical results for every output-path state
and flag combination; the format has no timestamp or random fields. -/
theorem c9_build_deterministic (xs ys : List InputFile) (st : PathState)
    (d f : Bool) (hn : xs.map (fun g => g.name) = ys.map (fun g => g.name))
    (hc : xs.map (fun g => g.content) = ys.map (fun g => g.content)) :
    archive xs st d f = archive ys st d f := by
  rw [inputs_eq_of_components xs ys hn hc]

/-- C9 witness: two syntactically identical builds of a one-file archive
agree. -/
theorem c9_build_deterministic_witness :
    [(⟨[97], [1, 2, 3, 4, 5]⟩ : InputFile)].map (fun g => g.name)
      = [(⟨[97], [1, 2, 3, 4, 5]⟩ : InputFile)].map (fun g => g.name)
    ∧ [(⟨[97], [1, 2, 3, 4, 5]⟩ : InputFile)].map (fun g => g.content)
      = [(⟨[97], [1, 2, 3, 4, 5]⟩ : InputFile)].map (fun g => g.content)
    ∧ archive [⟨[97], [1, 2, 3, 4, 5]⟩] PathState.absent false true
      = archive [⟨[97], [1, 2, 3, 4, 5]⟩] PathState.absent false true :=
  ⟨rfl, rfl, c9_build_deterministic [⟨[97], [1, 2, 3, 4, 5]⟩]
    [⟨[97], [1, 2, 3, 4, 5]⟩] PathState.absent false true rfl rfl⟩

end Nres
